import Mathlib

/-!
# Verification of the TWAB scroll script (`src/main.py`)

Shallow embedding of the single-file Python program that computes a
Time-Weighted Average Balance (TWAB) for a list of wallet addresses.

Modelling conventions:
* Calendar dates are integers (days since an arbitrary epoch).  All dates in
  the program are midnight `datetime`s produced by `strptime('%Y-%m-%d')` and
  `timedelta(days=i)`, so ordering, subtraction (`.days`) and ISO round-trips
  are exactly integer arithmetic.
* Python `Decimal` values are modelled as exact rationals `ℚ` (the cache
  stores them as strings, which round-trip exactly).  `Decimal` division by
  zero raises, which is modelled by the checked division `decDiv`.
* Block numbers and timestamps are integers; a provider's
  `web3.eth.get_block(n)['timestamp']` is a function `ts : ℤ → ℤ`.
  The `lru_cache` memoisation on `get_block_timestamp` and
  `find_block_by_timestamp` is semantically the identity and is dropped.
* Network effects are oracles passed as functions: the per-attempt outcome of
  `web3.eth.get_balance` is `fetch : ℕ → RpcResp`, and the per-day result of
  `process_day wallet day web3` (block lookup + balance fetch, which can
  raise) is `sample : ℤ → Except PyErr ℚ`.
* Exceptions are modelled with `Except`.  The worker thread pool consumes
  each wallet exactly once from a single queue; day-level concurrency only
  reorders the commutative sum of daily balances, so the scheduler is
  modelled as a sequential fold over the wallet list.
-/

/-- Errors a run can raise, mirroring the exceptions in `main.py`. -/
inductive PyErr where
  /-- Model of the `ConnectionError` raised at import time when a provider is down. -/
  | connectionError
  /-- Any exception escaping `process_day` (e.g. the retry-exhaustion
  `Exception` of `get_balance`, or a re-raised non-429 error). -/
  | sampleError
  /-- Model of `decimal.DivisionByZero` / `DivisionUndefined` from `total_balance / total_days`. -/
  | divisionByZero
deriving DecidableEq, Repr

/-- One record of `balance_cache.json`:
`{'total_balance': str(total_balance), 'last_checked': end_date.isoformat()}`. -/
structure CacheEntry where
  total_balance : ℚ
  last_checked : ℤ
deriving DecidableEq, Repr

/-- The cache dict, keyed by address string (`cache.get(key)`). -/
abbrev Cache := String → Option CacheEntry

/-- Model of `get_block_timestamp(web3, block_number)`: reads the provider's
timestamp for a block (`lru_cache` dropped as pure memoisation). -/
def get_block_timestamp (ts : ℤ → ℤ) (block_number : ℤ) : ℤ := ts block_number

/-- Model of `find_block_by_timestamp(web3, target_timestamp, start_block, end_block)`:
binary search over block numbers.  Python `//` is floor division, hence
`Int.fdiv`.  The trailing `return start_block if start_block <= end_block
else end_block` is reached exactly when the loop guard fails. -/
def find_block_by_timestamp (ts : ℤ → ℤ) (target_timestamp start_block end_block : ℤ) : ℤ :=
  if h : start_block ≤ end_block then
    let mid_block := Int.fdiv (start_block + end_block) 2
    let mid_timestamp := get_block_timestamp ts mid_block
    if mid_timestamp < target_timestamp then
      find_block_by_timestamp ts target_timestamp (mid_block + 1) end_block
    else if mid_timestamp > target_timestamp then
      find_block_by_timestamp ts target_timestamp start_block (mid_block - 1)
    else
      mid_block
  else
    if start_block ≤ end_block then start_block else end_block
termination_by (end_block + 1 - start_block).toNat
decreasing_by
  · have hk := Int.fdiv_add_fmod (start_block + end_block) 2
    have h0 : 0 ≤ (start_block + end_block).fmod 2 := Int.fmod_nonneg' _ (by norm_num)
    have h2 : (start_block + end_block).fmod 2 < 2 := Int.fmod_lt_of_pos _ (by norm_num)
    omega
  · have hk := Int.fdiv_add_fmod (start_block + end_block) 2
    have h0 : 0 ≤ (start_block + end_block).fmod 2 := Int.fmod_nonneg' _ (by norm_num)
    have h2 : (start_block + end_block).fmod 2 < 2 := Int.fmod_lt_of_pos _ (by norm_num)
    omega

/-- Outcome of one `web3.eth.get_balance` call inside `get_balance`. -/
inductive RpcResp where
  /-- The call returned a balance (already converted by `from_wei`). -/
  | ok (bal : ℚ)
  /-- The call raised an exception whose text contains `'429'`. -/
  | err429
  /-- The call raised any other exception. -/
  | errOther
deriving DecidableEq, Repr

/-- How `get_balance` terminates. -/
inductive BalErr where
  /-- A non-429 exception re-raised by `raise e`. -/
  | propagated
  /-- The final `raise Exception(f"Failed to get balance for wallet ... at block ...")`
  after the retry loop, carrying the wallet and block number. -/
  | exhausted (wallet_address : String) (block_number : ℤ)
deriving DecidableEq, Repr

deriving instance DecidableEq for Except

/-- Observable behaviour of one `get_balance` call: its result, the argument
of every `time.sleep` performed (in order), and how many times
`web3.eth.get_balance` was attempted. -/
structure BalCall where
  result : Except BalErr ℚ
  sleeps : List ℕ
  attempts : ℕ
deriving DecidableEq, Repr

/-- The `while retry_count < 5` loop of `get_balance`, with
`fuel = 5 - retry_count`.  `retry_count` is only incremented on a 429, and
any other outcome leaves the loop, so at every iteration the number of
attempts made so far equals `retry_count`; after a 429 the code sleeps
`2 ** retry_count` with the *incremented* counter. -/
def get_balance_go (fetch : ℕ → RpcResp) (wallet_address : String) (block_number : ℤ) :
    ℕ → ℕ → List ℕ → BalCall
  | 0, attempts, sleeps => ⟨.error (.exhausted wallet_address block_number), sleeps, attempts⟩
  | fuel + 1, attempts, sleeps =>
    match fetch attempts with
    | .ok bal => ⟨.ok bal, sleeps, attempts + 1⟩
    | .err429 => get_balance_go fetch wallet_address block_number fuel (attempts + 1)
        (sleeps ++ [2 ^ (attempts + 1)])
    | .errOther => ⟨.error .propagated, sleeps, attempts + 1⟩

/-- Model of `get_balance(web3, wallet_address, block_number)`: up to 5 attempts,
sleeping `2 ** retry_count` after each 429, re-raising anything else, and
raising the terminal `Exception` once `retry_count` reaches 5. -/
def get_balance (fetch : ℕ → RpcResp) (wallet_address : String) (block_number : ℤ) : BalCall :=
  get_balance_go fetch wallet_address block_number 5 0 []

/-- Model of `cache_key = wallet.lower()` (line 88 of `main.py`): character-wise
ASCII lowercasing (addresses are ASCII hex strings). -/
def cache_key (wallet : String) : String := ⟨wallet.data.map Char.toLower⟩

/-- Model of `Decimal(cache_data.get('total_balance', '0'))`. -/
def cached_total_of (cache : Cache) (wallet : String) : ℚ :=
  ((cache (cache_key wallet)).map CacheEntry.total_balance).getD 0

/-- Model of `last_checked_date`: the entry's date if present, else `start_date`
(lines 90–96 of `main.py`). -/
def last_checked_of (cache : Cache) (wallet : String) (start_date : ℤ) : ℤ :=
  ((cache (cache_key wallet)).map CacheEntry.last_checked).getD start_date

/-- Model of `day_chunks = [start_date + timedelta(days=i) for i in range((end_date - start_date).days + 1)]`. -/
def day_chunks (start_date end_date : ℤ) : List ℤ :=
  (List.range ((end_date - start_date) + 1).toNat).map (fun (i : ℕ) => start_date + (i : ℤ))

/-- Model of `missing_dates = [d for d in day_chunks if d > last_checked_date]`. -/
def missing_dates (start_date end_date last_checked_date : ℤ) : List ℤ :=
  (day_chunks start_date end_date).filter (fun d => d > last_checked_date)

/-- The `futures`/`as_completed` accumulation of `process_day` results:
the sum of the sampled balances, failing if any day's sampler raises
(the balance sum is commutative, so list order is irrelevant). -/
def sum_samples (sample : ℤ → Except PyErr ℚ) : List ℤ → Except PyErr ℚ
  | [] => .ok 0
  | d :: rest =>
    match sample d with
    | .error err => .error err
    | .ok bal =>
      match sum_samples sample rest with
      | .error err => .error err
      | .ok s => .ok (bal + s)

/-- `Decimal` division: raises on a zero divisor, exact otherwise. -/
def decDiv (a : ℚ) (b : ℤ) : Except PyErr ℚ :=
  if b = 0 then .error .divisionByZero else .ok (a / (b : ℚ))

/-- Model of `process_wallet(wallet, start_date, end_date, total_days, eth_price, cache, web3, progress)`.
Returns the updated cache dict together with the returned pair
`(wallet, TWAB)` and the list of dates that were actually sampled
(empty on the fully-cached short-circuit).  `sample d` stands for
`process_day(wallet, d, web3)`. -/
def process_wallet (wallet : String) (start_date end_date total_days : ℤ) (eth_price : ℚ)
    (cache : Cache) (sample : ℤ → Except PyErr ℚ) :
    Except PyErr (Cache × String × ℚ × List ℤ) :=
  if last_checked_of cache wallet start_date ≥ end_date then
    match decDiv (cached_total_of cache wallet) total_days with
    | .error err => .error err
    | .ok average_balance => .ok (cache, wallet, average_balance * eth_price, [])
  else
    match sum_samples sample
        (missing_dates start_date end_date (last_checked_of cache wallet start_date)) with
    | .error err => .error err
    | .ok day_sum =>
      let total_balance := day_sum + cached_total_of cache wallet
      let cache2 : Cache := fun k =>
        if k = cache_key wallet then some ⟨total_balance, end_date⟩ else cache k
      match decDiv total_balance total_days with
      | .error err => .error err
      | .ok average_balance =>
        .ok (cache2, wallet, average_balance * eth_price,
          missing_dates start_date end_date (last_checked_of cache wallet start_date))

/-- One iteration of `worker`: dequeue a wallet, run `process_wallet`,
record `results[wallet] = TWAB` on success, and on any exception log and
leave both the cache and the results untouched.  The state also counts the
total number of day samples performed. -/
def worker_step (start_date end_date total_days : ℤ) (eth_price : ℚ)
    (sample : String → ℤ → Except PyErr ℚ)
    (st : Cache × List (String × ℚ) × ℕ) (wallet : String) :
    Cache × List (String × ℚ) × ℕ :=
  match process_wallet wallet start_date end_date total_days eth_price st.1 (sample wallet) with
  | .ok (cache2, wallet_address, TWAB, sampled) =>
    (cache2, st.2.1 ++ [(wallet_address, TWAB)], st.2.2 + sampled.length)
  | .error _ => st

/-- The worker pool drains the queue: every wallet is dequeued exactly once
and processed against the shared cache; modelled as a sequential fold. -/
def run_pipeline (wallets : List String) (start_date end_date total_days : ℤ) (eth_price : ℚ)
    (cache0 : Cache) (sample : String → ℤ → Except PyErr ℚ) :
    Cache × List (String × ℚ) × ℕ :=
  wallets.foldl (worker_step start_date end_date total_days eth_price sample) (cache0, [], 0)

/-- Model of `total_days = (end_date - start_date).days + 1` (line 162 of `main.py`). -/
def total_days_of (start_date end_date : ℤ) : ℤ := end_date - start_date + 1

/-- The CSV writing loop of `main` (lines 190–196): one row
`{'Index': idx, 'Wallet': wallet, 'TWAB': results.get(wallet, 'N/A')}` per
input wallet, `enumerate(..., start=1)`.  `none` models the `'N/A'` cell. -/
def write_report (wallets : List String) (results : List (String × ℚ)) :
    List (ℕ × String × Option ℚ) :=
  wallets.enum.map (fun p => (p.1 + 1, p.2, results.lookup p.2))

/-- A provider handle: only the `is_connected()` probe matters for the
module-level connectivity gate; all other reads are oracles elsewhere. -/
structure Provider where
  connected : Bool

/-- The whole script: the module-level
`if not all(web3.is_connected() for web3 in web3_providers): raise ConnectionError`
runs at import, before `main` reads wallets or processes anything; on
success `main` drains the queue and writes the CSV report.  The `ok` payload
is the final pipeline state (cache, results, number of day samples) together
with the written report rows. -/
def runScript (providers : List Provider) (wallets : List String)
    (start_date end_date total_days : ℤ) (eth_price : ℚ) (cache0 : Cache)
    (sample : String → ℤ → Except PyErr ℚ) :
    Except PyErr ((Cache × List (String × ℚ) × ℕ) × List (ℕ × String × Option ℚ)) :=
  if providers.all Provider.connected then
    let st := run_pipeline wallets start_date end_date total_days eth_price cache0 sample
    .ok (st, write_report wallets st.2.1)
  else
    .error .connectionError

/-! ## Helper lemmas -/

/-- Floor-division midpoint of a nonempty interval stays inside it. -/
lemma fdiv_two_mem (s e : ℤ) (h : s ≤ e) :
    s ≤ Int.fdiv (s + e) 2 ∧ Int.fdiv (s + e) 2 ≤ e := by
  have hk := Int.fdiv_add_fmod (s + e) 2
  have h0 : 0 ≤ (s + e).fmod 2 := Int.fmod_nonneg' _ (by norm_num)
  have h2 : (s + e).fmod 2 < 2 := Int.fmod_lt_of_pos _ (by norm_num)
  omega

/-- If some block of `[s, e]` carries the target timestamp, the bisection
returns a block of `[s, e]` carrying the target timestamp. -/
lemma find_block_exact_aux (ts : ℤ → ℤ) (hm : Monotone ts) (target : ℤ) :
    ∀ n : ℕ, ∀ s e : ℤ, (e + 1 - s).toNat ≤ n →
      (∃ b, s ≤ b ∧ b ≤ e ∧ ts b = target) →
      s ≤ find_block_by_timestamp ts target s e ∧
        find_block_by_timestamp ts target s e ≤ e ∧
        ts (find_block_by_timestamp ts target s e) = target := by
  intro n
  induction n with
  | zero =>
    intro s e hle hex
    obtain ⟨b, hsb, hbe, _⟩ := hex
    omega
  | succ n ih =>
    intro s e hle hex
    obtain ⟨b, hsb, hbe, htb⟩ := hex
    have hse : s ≤ e := le_trans hsb hbe
    obtain ⟨hm1, hm2⟩ := fdiv_two_mem s e hse
    rw [find_block_by_timestamp]
    rw [dif_pos hse]
    simp only [get_block_timestamp]
    by_cases h1 : ts (Int.fdiv (s + e) 2) < target
    · rw [if_pos h1]
      have hbmid : Int.fdiv (s + e) 2 < b := by
        by_contra hc
        exact absurd (lt_of_le_of_lt (hm (not_lt.mp hc)) h1) (by simp [htb])
      obtain ⟨ha, hb, hc⟩ := ih (Int.fdiv (s + e) 2 + 1) e (by omega) ⟨b, by omega, hbe, htb⟩
      exact ⟨by omega, hb, hc⟩
    · rw [if_neg h1]
      by_cases h2 : ts (Int.fdiv (s + e) 2) > target
      · rw [if_pos h2]
        have hbmid : b < Int.fdiv (s + e) 2 := by
          by_contra hc
          exact absurd (lt_of_lt_of_le h2 (htb ▸ hm (not_lt.mp hc))) (lt_irrefl _)
        obtain ⟨ha, hb, hc⟩ := ih s (Int.fdiv (s + e) 2 - 1) (by omega) ⟨b, hsb, by omega, htb⟩
        exact ⟨ha, by omega, hc⟩
      · rw [if_neg h2]
        exact ⟨hm1, hm2, le_antisymm (not_lt.mp h2) (not_lt.mp h1)⟩

/-- If the target falls strictly between the timestamps of blocks `b` and
`b + 1`, the bisection over any interval `[s, e]` with `s ≤ b + 1` and
`b ≤ e` converges to `b`. -/
lemma find_block_between_aux (ts : ℤ → ℤ) (hm : Monotone ts) (target b : ℤ)
    (hb1 : ts b < target) (hb2 : target < ts (b + 1)) :
    ∀ n : ℕ, ∀ s e : ℤ, (e + 1 - s).toNat ≤ n → s ≤ b + 1 → b ≤ e →
      find_block_by_timestamp ts target s e = b := by
  intro n
  induction n with
  | zero =>
    intro s e hle hs he
    rw [find_block_by_timestamp]
    rw [dif_neg (by omega)]
    rw [if_neg (by omega)]
    omega
  | succ n ih =>
    intro s e hle hs he
    by_cases hse : s ≤ e
    · obtain ⟨hm1, hm2⟩ := fdiv_two_mem s e hse
      rw [find_block_by_timestamp]
      rw [dif_pos hse]
      simp only [get_block_timestamp]
      by_cases hmid : Int.fdiv (s + e) 2 ≤ b
      · have h1 : ts (Int.fdiv (s + e) 2) < target := lt_of_le_of_lt (hm hmid) hb1
        rw [if_pos h1]
        exact ih (Int.fdiv (s + e) 2 + 1) e (by omega) (by omega) he
      · have hge : b + 1 ≤ Int.fdiv (s + e) 2 := by omega
        have h2 : target < ts (Int.fdiv (s + e) 2) := lt_of_lt_of_le hb2 (hm hge)
        rw [if_neg (by omega)]
        rw [if_pos h2]
        exact ih s (Int.fdiv (s + e) 2 - 1) (by omega) hs (by omega)
    · rw [find_block_by_timestamp]
      rw [dif_neg hse]
      rw [if_neg hse]
      omega

/-- C2: for a provider whose block timestamps are non-decreasing in block
number, `find_block_by_timestamp` over `[0, head]` (i) returns a block of
the range whose timestamp equals the target whenever some block of the
range matches it exactly, and (ii) for a target strictly between the
timestamps of consecutive blocks `b` and `b + 1` it terminates and returns
the lower block `b` — the convergence produced by the final
`return start_block if start_block <= end_block else end_block`. -/
theorem C2_block_locator (ts : ℤ → ℤ) (head target : ℤ) (hm : Monotone ts) :
    ((∃ b, 0 ≤ b ∧ b ≤ head ∧ ts b = target) →
      0 ≤ find_block_by_timestamp ts target 0 head ∧
        find_block_by_timestamp ts target 0 head ≤ head ∧
        ts (find_block_by_timestamp ts target 0 head) = target) ∧
    (∀ b, 0 ≤ b → b + 1 ≤ head → ts b < target → target < ts (b + 1) →
      find_block_by_timestamp ts target 0 head = b) := by
  constructor
  · intro hex
    exact find_block_exact_aux ts hm target (head + 1 - 0).toNat 0 head le_rfl hex
  · intro b h0 h1 hlt hgt
    exact find_block_between_aux ts hm target b hlt hgt (head + 1 - 0).toNat 0 head le_rfl
      (by omega) (by omega)

/-- Witness for C2 on the deterministic mapping `ts b = 10 * b` with head 4:
target 20 is hit exactly at block 2, and target 25 (strictly between blocks
2 and 3) converges to the lower block 2. -/
theorem C2_block_locator_witness :
    (0 ≤ find_block_by_timestamp (fun b : ℤ => 10 * b) 20 0 4 ∧
      find_block_by_timestamp (fun b : ℤ => 10 * b) 20 0 4 ≤ 4 ∧
      (fun b : ℤ => 10 * b) (find_block_by_timestamp (fun b : ℤ => 10 * b) 20 0 4) = 20) ∧
    find_block_by_timestamp (fun b : ℤ => 10 * b) 25 0 4 = 2 := by
  have hm : Monotone (fun b : ℤ => 10 * b) := fun a b hab => by dsimp; omega
  exact ⟨(C2_block_locator (fun b : ℤ => 10 * b) 4 20 hm).1 ⟨2, by norm_num, by norm_num, by norm_num⟩,
    (C2_block_locator (fun b : ℤ => 10 * b) 4 25 hm).2 2 (by norm_num) (by norm_num)
      (by norm_num) (by norm_num)⟩

/-- C3 counterexample: against a provider that always signals a rate limit,
the observed sleep sequence of `get_balance` is `[2, 4, 8, 16, 32]`
(one sleep of `2 ** retry_count` after each of the 5 failed attempts, the
last one before the terminal raise), not the claimed `[1, 2, 4, 8, 16]`. -/
theorem C3_retry_counterexample :
    (get_balance (fun _ => .err429) "0xWallet" 123).sleeps = [2, 4, 8, 16, 32] ∧
      (get_balance (fun _ => .err429) "0xWallet" 123).sleeps ≠ [1, 2, 4, 8, 16] := by
  constructor <;> decide

/-- C3 (amended): on rate-limit signals only, `get_balance` makes exactly 5
attempts, sleeping `2 ** retry_count` after each failed attempt — the
delays between consecutive attempts are 2, 4, 8, 16, and a final sleep of
32 precedes the terminal failure, which carries the account and block
number; an error that is not a rate-limit signal propagates immediately
after the sleeps already incurred, with no further retry. -/
theorem C3_retry_policy (fetch : ℕ → RpcResp) (wallet_address : String) (block_number : ℤ) :
    ((∀ j, j < 5 → fetch j = .err429) →
      get_balance fetch wallet_address block_number =
        ⟨.error (.exhausted wallet_address block_number), [2, 4, 8, 16, 32], 5⟩) ∧
    (∀ k, k < 5 → (∀ j, j < k → fetch j = .err429) → fetch k = .errOther →
      get_balance fetch wallet_address block_number =
        ⟨.error .propagated, (List.range k).map (fun j => 2 ^ (j + 1)), k + 1⟩) := by
  constructor
  · intro h
    have h0 := h 0 (by norm_num)
    have h1 := h 1 (by norm_num)
    have h2 := h 2 (by norm_num)
    have h3 := h 3 (by norm_num)
    have h4 := h 4 (by norm_num)
    simp [get_balance, get_balance_go, h0, h1, h2, h3, h4]
  · intro k hk hprev hko
    interval_cases k
    · simp [get_balance, get_balance_go, hko]
    · have h0 := hprev 0 (by norm_num)
      simp [get_balance, get_balance_go, h0, hko, List.range_succ]
    · have h0 := hprev 0 (by norm_num)
      have h1 := hprev 1 (by norm_num)
      simp [get_balance, get_balance_go, h0, h1, hko, List.range_succ]
    · have h0 := hprev 0 (by norm_num)
      have h1 := hprev 1 (by norm_num)
      have h2 := hprev 2 (by norm_num)
      simp [get_balance, get_balance_go, h0, h1, h2, hko, List.range_succ]
    · have h0 := hprev 0 (by norm_num)
      have h1 := hprev 1 (by norm_num)
      have h2 := hprev 2 (by norm_num)
      have h3 := hprev 3 (by norm_num)
      simp [get_balance, get_balance_go, h0, h1, h2, h3, hko, List.range_succ]

/-- Witness for C3: a mock that always returns 429 produces 5 attempts,
sleeps 2, 4, 8, 16, 32 and the terminal failure with account and block;
a mock whose second attempt raises a non-429 error stops right there. -/
theorem C3_retry_policy_witness :
    get_balance (fun _ => .err429) "0xa" 7 =
      ⟨.error (.exhausted "0xa" 7), [2, 4, 8, 16, 32], 5⟩ ∧
    get_balance (fun n => if n = 1 then .errOther else .err429) "0xa" 7 =
      ⟨.error .propagated, [2], 2⟩ := by
  constructor
  · exact (C3_retry_policy (fun _ => .err429) "0xa" 7).1 (fun j hj => rfl)
  · have h := (C3_retry_policy (fun n => if n = 1 then .errOther else .err429) "0xa" 7).2 1
      (by norm_num) (fun j hj => by interval_cases j; rfl) (by rfl)
    simpa using h

/-- Every date in `day_chunks` is at most the end date. -/
lemma day_chunks_le_end {start_date end_date d : ℤ}
    (hd : d ∈ day_chunks start_date end_date) : d ≤ end_date := by
  rw [day_chunks, List.mem_map] at hd
  obtain ⟨i, hi, rfl⟩ := hd
  rw [List.mem_range] at hi
  omega

/-- If any day of the batch fails, the whole batch sum raises. -/
lemma sum_samples_error {sample : ℤ → Except PyErr ℚ} :
    ∀ {l : List ℤ}, (∃ d ∈ l, ∃ err, sample d = .error err) →
      ∃ err, sum_samples sample l = .error err := by
  intro l
  induction l with
  | nil => rintro ⟨d, hd, _⟩; simp at hd
  | cons d rest ih =>
    rintro ⟨d', hd', err', herr'⟩
    rcases List.mem_cons.mp hd' with rfl | hmem
    · exact ⟨err', by simp [sum_samples, herr']⟩
    · cases hhead : sample d with
      | error err => exact ⟨err, by simp [sum_samples, hhead]⟩
      | ok bal =>
        obtain ⟨err, hrest⟩ := ih ⟨d', hmem, err', herr'⟩
        exact ⟨err, by simp [sum_samples, hhead, hrest]⟩

/-- C4: if any day of an account's missing-day batch fails, `worker` catches
the exception escaping `process_wallet`, so the shared cache (in particular
the account's entry: neither `last_checked` nor `total_balance`) and the
results dict are left completely unchanged — a later run therefore
recomputes the very same missing range. -/
theorem C4_all_or_nothing (start_date end_date total_days : ℤ) (eth_price : ℚ)
    (sample : String → ℤ → Except PyErr ℚ) (cache : Cache)
    (results : List (String × ℚ)) (n : ℕ) (wallet : String)
    (hfail : ∃ d ∈ missing_dates start_date end_date (last_checked_of cache wallet start_date),
      ∃ err, sample wallet d = .error err) :
    worker_step start_date end_date total_days eth_price sample (cache, results, n) wallet =
      (cache, results, n) := by
  by_cases hlc : last_checked_of cache wallet start_date ≥ end_date
  · exfalso
    obtain ⟨d, hd, _⟩ := hfail
    simp only [missing_dates, List.mem_filter, decide_eq_true_eq] at hd
    exact absurd (day_chunks_le_end hd.1) (by omega)
  · obtain ⟨err, herr⟩ := sum_samples_error hfail
    simp [worker_step, process_wallet, hlc, herr]

/-- Witness for C4: a sampler that raises on every day leaves an empty
cache and empty results untouched. -/
theorem C4_all_or_nothing_witness :
    worker_step 0 2 3 1 (fun _ _ => .error .sampleError)
        ((fun _ => none), [], 0) "0xa" = ((fun _ => none), [], 0) :=
  C4_all_or_nothing 0 2 3 1 (fun _ _ => .error .sampleError) (fun _ => none) [] 0 "0xa"
    ⟨1, by decide, .sampleError, rfl⟩

/-- C1: evaluation at the failing input.  For an account with *no* cache
entry over the three-day range 0..2, `process_wallet` initialises
`last_checked_date` to the range start and then samples only the days
strictly after it: it samples `[1, 2]` — not the full range
`day_chunks 0 2 = [0, 1, 2]` that the resume rule prescribes for a fresh
account — yet still divides by `total_days = 3`, giving TWAB `20/3`
instead of `10` for a constant balance of 10 and price 1. -/
theorem C1_fresh_account_eval :
    (process_wallet "0xa" 0 2 3 1 (fun _ => none) (fun _ => .ok 10)).map
        (fun r => r.2.2.2) = .ok [1, 2] ∧
    (process_wallet "0xa" 0 2 3 1 (fun _ => none) (fun _ => .ok 10)).map
        (fun r => r.2.2.1) = .ok (20 / 3) ∧
    day_chunks 0 2 = [0, 1, 2] ∧ (0 : ℤ) ∉ [1, 2] ∧ (20 / 3 : ℚ) ≠ 10 := by
  refine ⟨by decide, ?_, by decide, by decide, by norm_num⟩
  have h : (process_wallet "0xa" 0 2 3 1 (fun _ => none) (fun _ => .ok 10)).map
      (fun r => r.2.2.1) = .ok ((10 + (10 + 0) + 0 : ℚ) / ((3 : ℤ) : ℚ) * 1) := rfl
  rw [h]
  norm_num

/-- C5: whenever `process_wallet` returns a result, the reported TWAB is
`(cumulative_balance / total_days) * price` in exact decimal arithmetic,
where the cumulative balance is the prior cached total plus the sum of the
newly sampled days (zero of them on the cached short-circuit) and
`total_days` is the inclusive length `(end_date - start_date) + 1` of the
full requested range, however the range splits between cache and fresh
samples. -/
theorem C5_twab_formula (wallet : String) (start_date end_date : ℤ) (eth_price : ℚ)
    (cache : Cache) (sample : ℤ → Except PyErr ℚ)
    (cache1 : Cache) (w1 : String) (twab1 : ℚ) (ds1 : List ℤ)
    (h : process_wallet wallet start_date end_date (total_days_of start_date end_date)
      eth_price cache sample = .ok (cache1, w1, twab1, ds1)) :
    ∃ day_sum, sum_samples sample ds1 = .ok day_sum ∧
      twab1 = (cached_total_of cache wallet + day_sum) /
        ((total_days_of start_date end_date : ℤ) : ℚ) * eth_price := by
  rw [process_wallet] at h
  by_cases hlc : last_checked_of cache wallet start_date ≥ end_date
  · rw [if_pos hlc] at h
    cases hdiv : decDiv (cached_total_of cache wallet) (total_days_of start_date end_date) with
    | error err => rw [hdiv] at h; exact absurd h (by simp)
    | ok avg =>
      rw [hdiv] at h
      rw [decDiv] at hdiv
      by_cases htd : total_days_of start_date end_date = 0
      · rw [if_pos htd] at hdiv; exact absurd hdiv (by simp)
      · rw [if_neg htd] at hdiv
        simp only [Except.ok.injEq, Prod.mk.injEq] at h hdiv
        obtain ⟨-, -, htw, hds⟩ := h
        refine ⟨0, by rw [← hds]; rfl, ?_⟩
        rw [← htw, ← hdiv, add_zero]
  · rw [if_neg hlc] at h
    cases hs : sum_samples sample
        (missing_dates start_date end_date (last_checked_of cache wallet start_date)) with
    | error err => rw [hs] at h; exact absurd h (by simp)
    | ok day_sum =>
      rw [hs] at h
      simp only at h
      cases hdiv : decDiv (day_sum + cached_total_of cache wallet)
          (total_days_of start_date end_date) with
      | error err => rw [hdiv] at h; exact absurd h (by simp)
      | ok avg =>
        rw [hdiv] at h
        rw [decDiv] at hdiv
        by_cases htd : total_days_of start_date end_date = 0
        · rw [if_pos htd] at hdiv; exact absurd hdiv (by simp)
        · rw [if_neg htd] at hdiv
          simp only [Except.ok.injEq, Prod.mk.injEq] at h hdiv
          obtain ⟨-, -, htw, hds⟩ := h
          refine ⟨day_sum, by rw [← hds]; exact hs, ?_⟩
          rw [← htw, ← hdiv, add_comm]

/-- Witness for C5: a fresh account over range 0..2 with constant sample 10
and price 1 reports `(0 + (10 + 10)) / 3 * 1` — the cached total plus the
newly sampled sum over the inclusive range length. -/
theorem C5_twab_formula_witness :
    ∃ day_sum, sum_samples (fun _ => Except.ok (10 : ℚ)) [1, 2] = .ok day_sum ∧
      (10 + (10 + 0) + 0 : ℚ) / ((total_days_of 0 2 : ℤ) : ℚ) * 1 =
        (cached_total_of (fun _ => none) "0xa" + day_sum) /
          ((total_days_of 0 2 : ℤ) : ℚ) * 1 :=
  C5_twab_formula "0xa" 0 2 1 (fun _ => none) (fun _ => .ok 10)
    (fun k => if k = cache_key "0xa" then some ⟨10 + (10 + 0) + 0, 2⟩
      else (fun _ => none : Cache) k)
    "0xa" ((10 + (10 + 0) + 0 : ℚ) / ((total_days_of 0 2 : ℤ) : ℚ) * 1) [1, 2] rfl

/-- C6: the CSV report has exactly one row per input wallet, in input order
with a 1-based index, and a wallet absent from the results dict (because
its processing failed) still gets its row, with the `'N/A'` sentinel
(`none`) in the TWAB column — so the report length always equals the input
length. -/
theorem C6_report_rows (wallets : List String) (results : List (String × ℚ)) :
    (write_report wallets results).length = wallets.length ∧
    ∀ i w, wallets[i]? = some w →
      (write_report wallets results)[i]? = some (i + 1, w, results.lookup w) := by
  constructor
  · simp [write_report]
  · intro i w hw
    simp [write_report, hw]

/-- Witness for C6: with wallets `["0xA", "0xB"]` and a results dict holding
only `"0xA"`, the report still has 2 rows and row 2 is `(2, "0xB", N/A)`. -/
theorem C6_report_rows_witness :
    (write_report ["0xA", "0xB"] [("0xA", 3)]).length = 2 ∧
    (write_report ["0xA", "0xB"] [("0xA", 3)])[1]? = some (2, "0xB", none) :=
  ⟨(C6_report_rows ["0xA", "0xB"] [("0xA", 3)]).1,
    (C6_report_rows ["0xA", "0xB"] [("0xA", 3)]).2 1 "0xB" rfl⟩

/-- C7: if any configured provider fails its `is_connected()` probe, the
module-level check raises `ConnectionError` — the run never reaches `main`,
so no account is processed, no balance is sampled, and the CSV report is
never produced; there is no degraded mode over the reachable providers. -/
theorem C7_fail_fast (providers : List Provider) (wallets : List String)
    (start_date end_date total_days : ℤ) (eth_price : ℚ) (cache0 : Cache)
    (sample : String → ℤ → Except PyErr ℚ)
    (hdown : ∃ pr ∈ providers, pr.connected = false) :
    runScript providers wallets start_date end_date total_days eth_price cache0 sample =
      .error .connectionError := by
  obtain ⟨pr, hmem, hconn⟩ := hdown
  have hall : ¬ providers.all Provider.connected = true := by
    rw [List.all_eq_true]
    intro h
    exact absurd (h pr hmem) (by simp [hconn])
  simp [runScript, hall]

/-- Witness for C7: one dead provider among two aborts the whole run. -/
theorem C7_fail_fast_witness :
    runScript [⟨true⟩, ⟨false⟩] ["0xA"] 0 2 3 1 (fun _ => none) (fun _ _ => .ok 10) =
      .error .connectionError :=
  C7_fail_fast [⟨true⟩, ⟨false⟩] ["0xA"] 0 2 3 1 (fun _ => none) (fun _ _ => .ok 10)
    ⟨⟨false⟩, by simp, rfl⟩

/-- C8: re-running `process_wallet` for an account over the same range, on
the cache produced by a successful first run, returns the identical TWAB,
leaves the cache unchanged, and samples zero days (any second-run sampler
is never consulted): the entry written by the first run satisfies the
`last_checked >= end_date` short-circuit. -/
theorem C8_idempotent (wallet : String) (start_date end_date total_days : ℤ)
    (eth_price : ℚ) (cache : Cache) (sample sample2 : ℤ → Except PyErr ℚ)
    (cache1 : Cache) (w1 : String) (twab1 : ℚ) (ds1 : List ℤ)
    (h : process_wallet wallet start_date end_date total_days eth_price cache sample =
      .ok (cache1, w1, twab1, ds1)) :
    process_wallet wallet start_date end_date total_days eth_price cache1 sample2 =
      .ok (cache1, w1, twab1, []) := by
  rw [process_wallet] at h
  by_cases hlc : last_checked_of cache wallet start_date ≥ end_date
  · rw [if_pos hlc] at h
    cases hdiv : decDiv (cached_total_of cache wallet) total_days with
    | error err => rw [hdiv] at h; exact absurd h (by simp)
    | ok avg =>
      rw [hdiv] at h
      simp only [Except.ok.injEq, Prod.mk.injEq] at h
      obtain ⟨hc, hw, htw, hds⟩ := h
      subst hc hw htw
      rw [process_wallet, if_pos hlc, hdiv]
  · rw [if_neg hlc] at h
    cases hs : sum_samples sample
        (missing_dates start_date end_date (last_checked_of cache wallet start_date)) with
    | error err => rw [hs] at h; exact absurd h (by simp)
    | ok day_sum =>
      rw [hs] at h
      simp only at h
      cases hdiv : decDiv (day_sum + cached_total_of cache wallet) total_days with
      | error err => rw [hdiv] at h; exact absurd h (by simp)
      | ok avg =>
        rw [hdiv] at h
        simp only [Except.ok.injEq, Prod.mk.injEq] at h
        obtain ⟨hc, hw, htw, hds⟩ := h
        subst hc hw htw
        have hl1 : last_checked_of (fun k =>
            if k = cache_key wallet
            then some ⟨day_sum + cached_total_of cache wallet, end_date⟩
            else cache k) wallet start_date = end_date := by
          simp [last_checked_of]
        have hc1 : cached_total_of (fun k =>
            if k = cache_key wallet
            then some ⟨day_sum + cached_total_of cache wallet, end_date⟩
            else cache k) wallet = day_sum + cached_total_of cache wallet := by
          simp [cached_total_of]
        rw [process_wallet, if_pos (ge_of_eq hl1), hc1, hdiv]

/-- Witness for C8: after the first fresh run over days 0..2, the second
run (with a sampler that always fails, demonstrating it is never called)
returns the same TWAB, the same cache, and an empty sampled-day list. -/
theorem C8_idempotent_witness :
    process_wallet "0xa" 0 2 3 1
        (fun k => if k = cache_key "0xa" then some ⟨10 + (10 + 0) + 0, 2⟩
          else (fun _ => none : Cache) k)
        (fun _ => .error .sampleError) =
      .ok (fun k => if k = cache_key "0xa" then some ⟨10 + (10 + 0) + 0, 2⟩
            else (fun _ => none : Cache) k,
          "0xa", (10 + (10 + 0) + 0 : ℚ) / ((3 : ℤ) : ℚ) * 1, []) :=
  C8_idempotent "0xa" 0 2 3 1 (fun _ => none) (fun _ => .ok 10)
    (fun _ => .error .sampleError)
    (fun k => if k = cache_key "0xa" then some ⟨10 + (10 + 0) + 0, 2⟩
      else (fun _ => none : Cache) k)
    "0xa" ((10 + (10 + 0) + 0 : ℚ) / ((3 : ℤ) : ℚ) * 1) [1, 2] rfl

/-- C9 counterexample: processing the checksummed wallet `"0xAb"` with an
empty cache stores its entry under the lowercased key `"0xab"` and leaves
nothing under the checksummed reporting identity `"0xAb"` itself. -/
theorem C9_key_counterexample :
    (process_wallet "0xAb" 0 2 3 1 (fun _ => none) (fun _ => .ok 10)).map
        (fun r => (Option.map CacheEntry.last_checked (r.1 "0xab"),
          Option.map CacheEntry.last_checked (r.1 "0xAb"))) = .ok (some 2, none) ∧
    cache_key "0xAb" ≠ "0xAb" := by
  constructor <;> decide

/-- C9 (amended): `process_wallet` stores and looks up the cache entry under
the *lowercased* address `cache_key wallet = wallet.lower()` — consistently
for store and lookup — while the identity returned for result reporting is
the checksummed `wallet` itself; the two strings differ whenever the
checksum form contains an uppercase letter (e.g. `"0xAb"`). -/
theorem C9_cache_key_lower :
    (∀ (wallet : String) (start_date end_date total_days : ℤ) (eth_price : ℚ)
        (cache : Cache) (sample : ℤ → Except PyErr ℚ) r,
      process_wallet wallet start_date end_date total_days eth_price cache sample = .ok r →
        r.2.1 = wallet ∧ ∀ k, k ≠ cache_key wallet → r.1 k = cache k) ∧
    (∀ (wallet : String) (start_date end_date total_days : ℤ) (eth_price : ℚ)
        (cacheA cacheB : Cache) (sample : ℤ → Except PyErr ℚ),
      cacheA (cache_key wallet) = cacheB (cache_key wallet) →
        (process_wallet wallet start_date end_date total_days eth_price cacheA sample).map
            (fun r => (r.2.1, r.2.2.1, r.2.2.2)) =
          (process_wallet wallet start_date end_date total_days eth_price cacheB sample).map
            (fun r => (r.2.1, r.2.2.1, r.2.2.2))) ∧
    cache_key "0xAb" ≠ "0xAb" := by
  refine ⟨?_, ?_, by decide⟩
  · intro wallet start_date end_date total_days eth_price cache sample r h
    rw [process_wallet] at h
    by_cases hlc : last_checked_of cache wallet start_date ≥ end_date
    · rw [if_pos hlc] at h
      cases hdiv : decDiv (cached_total_of cache wallet) total_days with
      | error err => rw [hdiv] at h; exact absurd h (by simp)
      | ok avg =>
        rw [hdiv] at h
        have hr := Except.ok.inj h
        subst hr
        exact ⟨rfl, fun k hk => rfl⟩
    · rw [if_neg hlc] at h
      cases hs : sum_samples sample
          (missing_dates start_date end_date (last_checked_of cache wallet start_date)) with
      | error err => rw [hs] at h; exact absurd h (by simp)
      | ok day_sum =>
        rw [hs] at h
        simp only at h
        cases hdiv : decDiv (day_sum + cached_total_of cache wallet) total_days with
        | error err => rw [hdiv] at h; exact absurd h (by simp)
        | ok avg =>
          rw [hdiv] at h
          have hr := Except.ok.inj h
          subst hr
          exact ⟨rfl, fun k hk => by simp [hk]⟩
  · intro wallet start_date end_date total_days eth_price cacheA cacheB sample hAB
    have h1 : last_checked_of cacheA wallet start_date =
        last_checked_of cacheB wallet start_date := by
      simp [last_checked_of, hAB]
    have h2 : cached_total_of cacheA wallet = cached_total_of cacheB wallet := by
      simp [cached_total_of, hAB]
    rw [process_wallet, process_wallet, h1, h2]
    by_cases hge : last_checked_of cacheB wallet start_date ≥ end_date
    · rw [if_pos hge, if_pos hge]
      cases hdiv : decDiv (cached_total_of cacheB wallet) total_days <;> rfl
    · rw [if_neg hge, if_neg hge]
      cases hs : sum_samples sample
          (missing_dates start_date end_date (last_checked_of cacheB wallet start_date)) with
      | error err => rfl
      | ok day_sum =>
        simp only
        cases hdiv : decDiv (day_sum + cached_total_of cacheB wallet) total_days <;> rfl

/-- Witness for C9 (amended): the first-run update for `"0xAb"` does not
touch any key other than `cache_key "0xAb"`, and the lowercased cache key
differs from the checksummed reporting identity. -/
theorem C9_cache_key_lower_witness :
    ((fun k => if k = cache_key "0xAb" then some (⟨10 + (10 + 0) + 0, 2⟩ : CacheEntry)
        else (fun _ => none : Cache) k) : Cache) "0xQ" = (fun _ => none : Cache) "0xQ" ∧
    cache_key "0xAb" ≠ "0xAb" :=
  ⟨(C9_cache_key_lower.1 "0xAb" 0 2 3 1 (fun _ => none) (fun _ => .ok 10)
      ((fun k => if k = cache_key "0xAb" then some ⟨10 + (10 + 0) + 0, 2⟩
          else (fun _ => none : Cache) k),
        "0xAb", (10 + (10 + 0) + 0 : ℚ) / ((3 : ℤ) : ℚ) * 1, [1, 2]) rfl).2
      "0xQ" (by decide),
    C9_cache_key_lower.2.2⟩

/-- C10 counterexample: with `total_days = -3` (end date four days before
the start date), `process_wallet` still *succeeds* — the short-circuit
branch divides by the negative count without error and reports a TWAB with
an empty sampled-day list — so `total_days > 0` is not a precondition of a
successfully reported TWAB; only `total_days ≠ 0` is. -/
theorem C10_negative_days_counterexample :
    (process_wallet "0xa" 0 (-4) (-3) 2 (fun _ => none)
        (fun _ => .error .sampleError)).map (fun r => r.2.2.2) = .ok [] ∧
    (process_wallet "0xa" 0 (-4) (-3) 2 (fun _ => none)
        (fun _ => .error .sampleError)).isOk = true ∧
    ¬ ((-3 : ℤ) > 0) := by
  refine ⟨by decide, by decide, by decide⟩

/-- C10 (amended): `total_days = (end_date - start_date) + 1` is computed
with no positivity guard; when the end date precedes the start date by
exactly one day it is 0 and `process_wallet` raises the decimal
division-by-zero error instead of any fail-fast at configuration load, and
`total_days ≠ 0` (not `> 0`) is the unstated precondition of every
successfully returned TWAB. -/
theorem C10_zero_days_division :
    (∀ start_date : ℤ, total_days_of start_date (start_date - 1) = 0) ∧
    (∀ (wallet : String) (start_date : ℤ) (eth_price : ℚ) (cache : Cache)
        (sample : ℤ → Except PyErr ℚ),
      process_wallet wallet start_date (start_date - 1)
          (total_days_of start_date (start_date - 1)) eth_price cache sample =
        .error .divisionByZero) ∧
    (∀ (wallet : String) (start_date end_date total_days : ℤ) (eth_price : ℚ)
        (cache : Cache) (sample : ℤ → Except PyErr ℚ) r,
      process_wallet wallet start_date end_date total_days eth_price cache sample = .ok r →
        total_days ≠ 0) := by
  have htd : ∀ s : ℤ, total_days_of s (s - 1) = 0 := by
    intro s; rw [total_days_of]; ring
  refine ⟨htd, ?_, ?_⟩
  · intro wallet start_date eth_price cache sample
    rw [process_wallet]
    by_cases hlc : last_checked_of cache wallet start_date ≥ start_date - 1
    · rw [if_pos hlc, htd]
      rfl
    · rw [if_neg hlc]
      have hmd : missing_dates start_date (start_date - 1)
          (last_checked_of cache wallet start_date) = [] := by
        have hdc : day_chunks start_date (start_date - 1) = [] := by
          rw [day_chunks]
          have h0 : ((start_date - 1) - start_date + 1).toNat = 0 := by omega
          rw [h0]
          rfl
        rw [missing_dates, hdc]
        rfl
      rw [hmd, htd]
      rfl
  · intro wallet start_date end_date total_days eth_price cache sample r h htd0
    subst htd0
    rw [process_wallet] at h
    by_cases hlc : last_checked_of cache wallet start_date ≥ end_date
    · rw [if_pos hlc] at h
      exact absurd h (by simp [decDiv])
    · rw [if_neg hlc] at h
      cases hs : sum_samples sample
          (missing_dates start_date end_date (last_checked_of cache wallet start_date)) with
      | error err => rw [hs] at h; exact absurd h (by simp)
      | ok day_sum => rw [hs] at h; exact absurd h (by simp [decDiv])

/-- Witness for C10 (amended): concrete zero-length range 5..4 raises the
division error, and the successful fresh run over 0..2 indeed had
`total_days = 3 ≠ 0`. -/
theorem C10_zero_days_division_witness :
    total_days_of 5 4 = 0 ∧
    process_wallet "0xa" 5 4 (total_days_of 5 4) 1 (fun _ => none) (fun _ => .ok 1) =
      .error .divisionByZero ∧
    (3 : ℤ) ≠ 0 :=
  ⟨C10_zero_days_division.1 5,
    C10_zero_days_division.2.1 "0xa" 5 1 (fun _ => none) (fun _ => .ok 1),
    C10_zero_days_division.2.2 "0xa" 0 2 3 1 (fun _ => none) (fun _ => .ok 10)
      ((fun k => if k = cache_key "0xa" then some ⟨10 + (10 + 0) + 0, 2⟩
          else (fun _ => none : Cache) k),
        "0xa", (10 + (10 + 0) + 0 : ℚ) / ((3 : ℤ) : ℚ) * 1, [1, 2]) rfl⟩
